import Mathlib

/-!
Verification of the agro-mvp mission-planning frontend and of the
trip-segmentation core described by its design document.

The repository sources under verification are the Next.js frontend files
(`apps/web/app/app/page.tsx`, `apps/web/app/app/map-editor.tsx` and the
fuller editor variant shipped in the same tree).  The backend planner
(`apps/api`, `packages/planner`) is not part of the checked-in sources, so
the Trip Segmenter and the Mission record layout are modelled from the
design document and marked as such on each definition.

Numbers are modelled as rationals (`ℚ`); JavaScript's non-finite numbers
(`NaN`, `±Infinity`) are modelled by `Option ℚ` with `none` standing for a
non-finite value, at the places where the source checks finiteness.
-/

namespace AgroMvp

/-! ### Field-name sets of the exchanged records

The frontend declares its record shapes as TypeScript object types; we
embed each type declaration as the list of its field names, in declaration
order. -/

/-- Field names of the `METRIC_LABELS` table of
`apps/web/app/app/page.tsx` (and of the fuller editor variant), in
declaration order, each paired with its display label. -/
def metricLabels : List (String × String) :=
  [("length_total_m", "Length total, m"),
   ("length_transit_m", "Transit, m"),
   ("length_spray_m", "Spray, m"),
   ("time_total_min", "Time total, min"),
   ("fuel_l", "Fuel, l"),
   ("fert_l", "Mix, l"),
   ("field_area_ha", "Field area, ha"),
   ("sprayed_area_ha", "Sprayed, ha")]

/-- Modelled from the spec: the key set of the `metrics` object of the
Mission record returned by the (absent) backend, as listed in the output
contract of the design document. -/
def missionMetricsKeys : List String :=
  ["length_total_m", "length_transit_m", "length_spray_m", "time_total_min",
   "fuel_l", "fert_l", "field_area_ha", "sprayed_area_ha"]

/-- Field names of the `TripGeo` type of `apps/web/app/app/map-editor.tsx`
(the names under which the map editor reads a trip object), in declaration
order. -/
def tripGeoKeys : List String :=
  ["start_idx", "end_idx", "to_field", "back_home"]

/-- Field names read from a trip object by the trip cards of
`apps/web/app/app/page.tsx` (`trip.start_idx`, `trip.end_idx`,
`trip.fuel_used_l`, `trip.mix_used_l`). -/
def tripCardKeys : List String :=
  ["start_idx", "end_idx", "fuel_used_l", "mix_used_l"]

/-- Modelled from the spec: the trip field names as written in the output
contract of the design document (the claim under test). -/
def tripRecordKeysSpec : List String :=
  ["start_idx", "end_idx", "to_field_geometry", "back_home_geometry",
   "fuel_used_l", "mix_used_l"]

/-- The trip field names the frontend actually reads: transit geometry
under `to_field` and `back_home`, figures under `fuel_used_l` and
`mix_used_l`, range under `start_idx` and `end_idx`. -/
def tripRecordKeysAmended : List String :=
  ["start_idx", "end_idx", "to_field", "back_home",
   "fuel_used_l", "mix_used_l"]

/-- Field names of the `AircraftParams` type of the fuller editor
(`src/unnamed/part_000`, lines 32 to 43), in declaration order. -/
def aircraftParamsKeys : List String :=
  ["spray_width_m", "turn_radius_m", "total_capacity_l", "fuel_reserve_l",
   "mix_rate_l_per_ha", "fuel_burn_l_per_km", "headland_factor",
   "route_order", "objective", "use_cc"]

/-- Field names of the `AircraftParams` type of
`apps/web/app/app/page.tsx` (lines 32 to 39), in declaration order. -/
def aircraftParamsKeysSimple : List String :=
  ["spray_width_m", "turn_radius_m", "total_capacity_l", "fuel_reserve_l",
   "mix_rate_l_per_ha", "fuel_burn_l_per_km"]

/-- Modelled from the spec: the AircraftProfile field names as written in
the data model of the design document (the claim under test). -/
def claimedAircraftKeys : List String :=
  ["spray_width_m", "turn_radius_m", "total_capacity_l", "fuel_reserve_l",
   "mix_rate_l_per_ha", "fuel_burn_l_per_km", "headland_factor",
   "route_order", "objective", "use_continuous_curvature"]

/-- The four values of the `route_order` union type of `AircraftParams`
in the fuller editor. -/
inductive RouteOrder where
  | snake
  | boustro
  | spiral
  | straight_loops
deriving DecidableEq, Repr

/-- The four values of the `objective` union type of `AircraftParams`
in the fuller editor. -/
inductive Objective where
  | n_swath
  | swath_length
  | field_coverage
  | overlap
deriving DecidableEq, Repr

/-- The serialized form of a `route_order` value, as submitted in the
mission-build request body. -/
def routeOrderStr : RouteOrder → String
  | .snake => "snake"
  | .boustro => "boustro"
  | .spiral => "spiral"
  | .straight_loops => "straight_loops"

/-- The serialized form of an `objective` value, as submitted in the
mission-build request body. -/
def objectiveStr : Objective → String
  | .n_swath => "n_swath"
  | .swath_length => "swath_length"
  | .field_coverage => "field_coverage"
  | .overlap => "overlap"

/-- The aircraft parameters of the fuller editor, one field per
`AircraftParams` field (`src/unnamed/part_000`, lines 32 to 43).  Numeric
fields are rationals. -/
structure AircraftProfile where
  spray_width_m : ℚ
  turn_radius_m : ℚ
  total_capacity_l : ℚ
  fuel_reserve_l : ℚ
  mix_rate_l_per_ha : ℚ
  fuel_burn_l_per_km : ℚ
  headland_factor : ℚ
  route_order : RouteOrder
  objective : Objective
  use_cc : Bool
deriving DecidableEq, Repr

/-- Claim C3: the mission-wide metrics of the Mission record comprise
exactly the eight fields length_total_m, length_transit_m, length_spray_m,
time_total_min, fuel_l, fert_l, field_area_ha, sprayed_area_ha, which is
exactly the key set labelled by the frontend's METRIC_LABELS table, in the
same order. -/
theorem metric_labels_match_mission_metrics :
    metricLabels.map Prod.fst = missionMetricsKeys := by
  decide

/-- Claim C4, counterexample: the trip field-name set claimed by the spec
(with `to_field_geometry` and `back_home_geometry`) is not the field-name
set the frontend reads; in particular `to_field_geometry` is read nowhere
by the map editor or the trip cards. -/
theorem trip_keys_spec_mismatch :
    tripRecordKeysSpec.toFinset ≠ (tripGeoKeys ++ tripCardKeys).toFinset
      ∧ "to_field_geometry" ∉ tripGeoKeys ++ tripCardKeys := by
  decide

/-- Claim C4, amended: the trip fields the frontend reads when rendering
transit geometry (map editor's TripGeo) and per-trip fuel/mix figures
(trip cards) are exactly start_idx, end_idx, to_field, back_home,
fuel_used_l, mix_used_l. -/
theorem trip_keys_frontend :
    (tripGeoKeys ++ tripCardKeys).toFinset = tripRecordKeysAmended.toFinset := by
  decide

/-- Claim C5, counterexample: the AircraftProfile field-name set claimed
by the spec (with `use_continuous_curvature`) matches neither editor's
`AircraftParams` type: the fuller editor names the boolean `use_cc`, and
the simpler editor has only the six numeric fields. -/
theorem aircraft_keys_spec_mismatch :
    claimedAircraftKeys.toFinset ≠ aircraftParamsKeys.toFinset
      ∧ claimedAircraftKeys.toFinset ≠ aircraftParamsKeysSimple.toFinset
      ∧ "use_continuous_curvature" ∉ aircraftParamsKeys := by
  decide

/-- Claim C5, amended: the AircraftProfile submitted by the fuller editor
consists of exactly the fields spray_width_m, turn_radius_m,
total_capacity_l, fuel_reserve_l, mix_rate_l_per_ha, fuel_burn_l_per_km,
headland_factor, route_order, objective and use_cc; route_order and
objective range over closed four-variant sets whose serialized values are
snake/boustro/spiral/straight_loops and
n_swath/swath_length/field_coverage/overlap; the simpler editor submits
only the six numeric fields. -/
theorem aircraft_keys_frontend :
    aircraftParamsKeys.toFinset
        = (aircraftParamsKeysSimple
            ++ ["headland_factor", "route_order", "objective", "use_cc"]).toFinset
      ∧ (∀ r : RouteOrder,
          routeOrderStr r ∈ ["snake", "boustro", "spiral", "straight_loops"])
      ∧ (∀ o : Objective,
          objectiveStr o ∈ ["n_swath", "swath_length", "field_coverage", "overlap"]) := by
  refine ⟨by decide, ?_, ?_⟩
  · intro r; cases r <;> simp [routeOrderStr]
  · intro o; cases o <;> simp [objectiveStr]

/-! ### Trip Segmenter

Modelled from the spec: the backend Trip Segmenter (`packages/planner`,
`apps/api`) is not among the checked-in sources; these definitions follow
the greedy algorithm of the design document word for word: a running trip
buffer of (start index, cumulative mix volume); a swath whose incremental
volume alone exceeds `total_capacity_l` fails the build with
CapacityExceeded; a swath that fits joins the open buffer; otherwise the
buffer closes as a trip ending at the previous index and a new buffer
opens at the current swath; the final open buffer closes after the loop. -/

/-- A trip produced by the segmenter: a contiguous index range into the
coverage path plus its accumulated mix volume. -/
structure Trip where
  start_idx : ℕ
  end_idx : ℕ
  mix_used_l : ℚ
deriving DecidableEq, Repr

/-- The failure taxonomy entry raised by the segmenter. -/
inductive SegError where
  | capacityExceeded
deriving DecidableEq, Repr

/-- Modelled from the spec: the incremental mix volume of one swath,
(swath.length_m times spray_width_m over 10000) times mix_rate_l_per_ha. -/
def incVol (p : AircraftProfile) (len : ℚ) : ℚ :=
  len * p.spray_width_m / 10000 * p.mix_rate_l_per_ha

/-- Modelled from the spec: the segmentation loop with an open buffer.
Arguments: remaining swath lengths, index of the next swath, start index
of the open buffer, cumulative mix volume of the open buffer. -/
def segGo (p : AircraftProfile) :
    List ℚ → ℕ → ℕ → ℚ → Except SegError (List Trip)
  | [], i, s, m => .ok [⟨s, i - 1, m⟩]
  | len :: rest, i, s, m =>
    let inc := incVol p len
    if p.total_capacity_l < inc then .error .capacityExceeded
    else if m + inc ≤ p.total_capacity_l then segGo p rest (i + 1) s (m + inc)
    else
      match segGo p rest (i + 1) i inc with
      | .ok ts => .ok (⟨s, i - 1, m⟩ :: ts)
      | .error e => .error e

/-- Modelled from the spec: the Trip Segmenter.  An empty coverage path
yields no trips; otherwise the first swath opens the buffer (after the
single-swath capacity check) and the loop runs. -/
def segmentTrips (p : AircraftProfile) (lengths : List ℚ) :
    Except SegError (List Trip) :=
  match lengths with
  | [] => .ok []
  | len :: rest =>
    let inc := incVol p len
    if p.total_capacity_l < inc then .error .capacityExceeded
    else segGo p rest 1 0 inc

/-- The trip list `ts` tiles the index interval from `k` (inclusive) to
`n` (exclusive) in order: each trip starts where the previous one ended
plus one, is nonempty, and the last one ends at `n - 1`. -/
def chainedFrom : ℕ → List Trip → ℕ → Prop
  | k, [], n => k = n
  | k, t :: ts, n => t.start_idx = k ∧ k ≤ t.end_idx ∧ chainedFrom (t.end_idx + 1) ts n

theorem segGo_chained (p : AircraftProfile) :
    ∀ (rest : List ℚ) (i s : ℕ) (m : ℚ) (ts : List Trip), s < i →
      segGo p rest i s m = .ok ts → chainedFrom s ts (i + rest.length)
  | [], i, s, m, ts, hsi, h => by
    simp only [segGo] at h
    cases h
    refine ⟨rfl, ?_, ?_⟩
    · show s ≤ i - 1
      omega
    · show i - 1 + 1 = i + List.length ([] : List ℚ)
      simp only [List.length_nil, Nat.add_zero]
      omega
  | len :: rest, i, s, m, ts, hsi, h => by
    simp only [segGo] at h
    split at h
    · exact absurd h (by simp)
    · split at h
      · have := segGo_chained p rest (i + 1) s (m + incVol p len) ts (by omega) h
        simpa [Nat.add_comm, Nat.add_left_comm] using this
      · cases hrec : segGo p rest (i + 1) i (incVol p len) with
        | ok ts' =>
          rw [hrec] at h
          cases h
          have := segGo_chained p rest (i + 1) i (incVol p len) ts' (by omega) hrec
          refine ⟨rfl, ?_, ?_⟩
          · show s ≤ i - 1
            omega
          · show chainedFrom (i - 1 + 1) ts' (i + List.length (len :: rest))
            have hi : i - 1 + 1 = i := by omega
            rw [hi]
            have harith : i + List.length (len :: rest) = i + 1 + rest.length := by
              simp only [List.length_cons]
              omega
            rwa [harith]
        | error e => rw [hrec] at h; exact absurd h (by simp)

theorem chained_start_le_end :
    ∀ (ts : List Trip) (k n : ℕ), chainedFrom k ts n →
      ∀ t ∈ ts, t.start_idx ≤ t.end_idx
  | [], _, _, _ => by simp
  | t :: ts, k, n, h => by
    obtain ⟨hs, he, hrest⟩ := h
    intro u hu
    rcases List.mem_cons.mp hu with rfl | hu
    · omega
    · exact chained_start_le_end ts _ n hrest u hu

theorem chained_chain' :
    ∀ (ts : List Trip) (k n : ℕ), chainedFrom k ts n →
      List.Chain' (fun a b => b.start_idx = a.end_idx + 1) ts
  | [], _, _, _ => List.chain'_nil
  | [t], _, _, _ => List.chain'_singleton t
  | t :: u :: ts, k, n, h => by
    obtain ⟨hs, he, hrest⟩ := h
    have htail := chained_chain' (u :: ts) _ n hrest
    exact List.chain'_cons.mpr ⟨hrest.1, htail⟩

theorem chained_lower_bound :
    ∀ (ts : List Trip) (k n : ℕ), chainedFrom k ts n →
      ∀ t ∈ ts, k ≤ t.start_idx
  | [], _, _, _ => by simp
  | t :: ts, k, n, h => by
    obtain ⟨hs, he, hrest⟩ := h
    intro u hu
    rcases List.mem_cons.mp hu with rfl | hu
    · omega
    · have := chained_lower_bound ts _ n hrest u hu
      omega

theorem chained_countP :
    ∀ (ts : List Trip) (k n : ℕ), chainedFrom k ts n →
      ∀ i, k ≤ i → i < n →
        ts.countP (fun t => decide (t.start_idx ≤ i ∧ i ≤ t.end_idx)) = 1
  | [], k, n, h, i, hki, hin => by
    simp only [chainedFrom] at h
    omega
  | t :: ts, k, n, h, i, hki, hin => by
    obtain ⟨hs, he, hrest⟩ := h
    rw [List.countP_cons]
    by_cases hcase : i ≤ t.end_idx
    · have hpred : decide (t.start_idx ≤ i ∧ i ≤ t.end_idx) = true := by
        rw [decide_eq_true_eq]
        omega
      have hzero :
          ts.countP (fun t => decide (t.start_idx ≤ i ∧ i ≤ t.end_idx)) = 0 := by
        rw [List.countP_eq_zero]
        intro u hu
        have := chained_lower_bound ts _ n hrest u hu
        simp only [decide_eq_true_eq]
        omega
      rw [hpred, if_pos rfl, hzero]
    · have hpred : decide (t.start_idx ≤ i ∧ i ≤ t.end_idx) = false := by
        rw [decide_eq_false_iff_not]
        omega
      rw [hpred, if_neg (by simp), Nat.add_zero]
      exact chained_countP ts _ n hrest i (by omega) hin

theorem segmentTrips_chained (p : AircraftProfile) (lengths : List ℚ)
    (trips : List Trip) (h : segmentTrips p lengths = .ok trips) :
    chainedFrom 0 trips lengths.length := by
  cases lengths with
  | nil =>
    simp only [segmentTrips] at h
    cases h
    simp [chainedFrom]
  | cons len rest =>
    simp only [segmentTrips] at h
    split at h
    · exact absurd h (by simp)
    · have := segGo_chained p rest 1 0 (incVol p len) trips (by omega) h
      simpa [Nat.add_comm] using this

/-- Claim C1: for every coverage path, a successful segmentation yields a
trip sequence that partitions the index range exactly: consecutive trips
are adjacent (ordered, contiguous, non-overlapping), every trip is a
nonempty range, and every swath index lies in exactly one trip. -/
theorem trip_segmenter_partition (p : AircraftProfile) (lengths : List ℚ)
    (trips : List Trip) (h : segmentTrips p lengths = .ok trips) :
    List.Chain' (fun a b => b.start_idx = a.end_idx + 1) trips
      ∧ (∀ t ∈ trips, t.start_idx ≤ t.end_idx)
      ∧ ∀ i < lengths.length,
          trips.countP (fun t => decide (t.start_idx ≤ i ∧ i ≤ t.end_idx)) = 1 := by
  have hch := segmentTrips_chained p lengths trips h
  exact ⟨chained_chain' trips 0 lengths.length hch,
    chained_start_le_end trips 0 lengths.length hch,
    fun i hi => chained_countP trips 0 lengths.length hch i (Nat.zero_le i) hi⟩

/-- Scenario B of the design document: ten 100 m swaths, 20 m spray width,
10 l/ha, 5 l capacity, segmented into five two-swath trips. -/
def scenarioBProfile : AircraftProfile :=
  ⟨20, 40, 5, 5, 10, 35 / 100, 3, .snake, .n_swath, true⟩

/-- The ten 100 m swath lengths of Scenario B. -/
def scenarioBLengths : List ℚ := List.replicate 10 100

/-- The five two-swath trips Scenario B expects. -/
def scenarioBTrips : List Trip :=
  [⟨0, 1, 4⟩, ⟨2, 3, 4⟩, ⟨4, 5, 4⟩, ⟨6, 7, 4⟩, ⟨8, 9, 4⟩]

theorem trip_segmenter_partition_witness :
    List.Chain' (fun a b => b.start_idx = a.end_idx + 1) scenarioBTrips
      ∧ (∀ t ∈ scenarioBTrips, t.start_idx ≤ t.end_idx)
      ∧ ∀ i < scenarioBLengths.length,
          scenarioBTrips.countP
            (fun t => decide (t.start_idx ≤ i ∧ i ≤ t.end_idx)) = 1 :=
  trip_segmenter_partition scenarioBProfile scenarioBLengths scenarioBTrips
    (by norm_num [segmentTrips, segGo, incVol, scenarioBProfile,
      scenarioBLengths, scenarioBTrips, List.replicate])

theorem segGo_capacity_error (p : AircraftProfile) :
    ∀ (rest : List ℚ) (i s : ℕ) (m : ℚ),
      (∃ len ∈ rest, p.total_capacity_l < incVol p len) →
      segGo p rest i s m = .error .capacityExceeded
  | [], i, s, m, h => by simp at h
  | len :: rest, i, s, m, h => by
    simp only [segGo]
    by_cases hlen : p.total_capacity_l < incVol p len
    · simp [hlen]
    · obtain ⟨w, hw, hcap⟩ := h
      rcases List.mem_cons.mp hw with rfl | hw
      · exact absurd hcap hlen
      · have hrest : ∃ w ∈ rest, p.total_capacity_l < incVol p w := ⟨w, hw, hcap⟩
        rw [if_neg hlen]
        split
        · exact segGo_capacity_error p rest (i + 1) s _ hrest
        · rw [segGo_capacity_error p rest (i + 1) i _ hrest]

/-- Claim C2: if some single swath's incremental mix volume exceeds
total_capacity_l, segmentation fails with CapacityExceeded and no trip
sequence is produced (the swath is never split across trips: trips are
whole-index ranges by construction). -/
theorem trip_segmenter_capacity_exceeded (p : AircraftProfile)
    (lengths : List ℚ)
    (h : ∃ len ∈ lengths, p.total_capacity_l < incVol p len) :
    segmentTrips p lengths = .error .capacityExceeded := by
  cases lengths with
  | nil => simp at h
  | cons len rest =>
    simp only [segmentTrips]
    by_cases hlen : p.total_capacity_l < incVol p len
    · simp [hlen]
    · obtain ⟨w, hw, hcap⟩ := h
      rcases List.mem_cons.mp hw with rfl | hw
      · exact absurd hcap hlen
      · rw [if_neg hlen]
        exact segGo_capacity_error p rest 1 0 _ ⟨w, hw, hcap⟩

theorem trip_segmenter_capacity_exceeded_witness :
    segmentTrips scenarioBProfile [100, 10000, 100]
      = .error .capacityExceeded :=
  trip_segmenter_capacity_exceeded scenarioBProfile [100, 10000, 100]
    ⟨10000, by simp, by norm_num [incVol, scenarioBProfile]⟩

/-! ### Geometry model of the map editor

Coordinates are rational pairs.  A GeoJSON geometry is modelled by the
cases `geoToLines` of `map-editor.tsx` distinguishes: LineString,
MultiLineString, and anything else. -/

/-- A coordinate pair.  GeoJSON stores pairs as longitude then latitude;
`toLatLng` swaps them for Leaflet. -/
abbrev Pt := ℚ × ℚ

/-- The GeoJSON geometries `geoToLines` distinguishes. -/
inductive Geo where
  | lineString (coordinates : List Pt)
  | multiLineString (coordinates : List (List Pt))
  | other
deriving DecidableEq, Repr

/-- The coordinate swap of `map-editor.tsx`: `[lng, lat]` to `[lat, lng]`. -/
def toLatLng (p : Pt) : Pt := (p.2, p.1)

/-- `geoToLines` of `map-editor.tsx`: a LineString becomes one polyline,
a MultiLineString its list of polylines, anything else no polylines. -/
def geoToLines : Geo → List (List Pt)
  | .lineString cs => [cs.map toLatLng]
  | .multiLineString ls => ls.map (fun ln => ln.map toLatLng)
  | .other => []

/-! ### buildMission of the fuller editor (`src/unnamed/part_000`)

The function's observable action per invocation: return silently when no
auth token is held; set an error naming each missing geometry when the
field polygon or the runway centerline is absent; otherwise POST the
mission-build request to /missions/from-geo. -/

/-- The action `buildMission` takes on one invocation. -/
inductive BuildAction where
  | noop
  | showError (msg : String)
  | post
deriving DecidableEq, Repr

/-- The missing-geometry name list of `buildMission`:
`[!field ? "field polygon" : null, !runway ? "runway line" : null]`
filtered of nulls. -/
def missingParts (field runway : Option Geo) : List String :=
  [(if field.isNone then some "field polygon" else none),
   (if runway.isNone then some "runway line" else none)].filterMap id

/-- The error message `buildMission` sets when geometry is missing:
the missing names joined with " and " after the fixed prefix. -/
def missingGeometryMessage (field runway : Option Geo) : String :=
  "Missing required geometry: "
    ++ String.intercalate " and " (missingParts field runway)

/-- `buildMission` of `src/unnamed/part_000`, lines 142 to 175: the token
guard returns silently, the geometry guard sets the error, and only the
fall-through issues the POST to /missions/from-geo. -/
def buildMissionAction (token : Option String) (field runway : Option Geo) :
    BuildAction :=
  if token.isNone then .noop
  else if field.isNone || runway.isNone then
    .showError (missingGeometryMessage field runway)
  else .post

/-- Claim C6, counterexample: an invocation of buildMission with no auth
token and a missing field polygon posts nothing but also sets no error
message: the token guard returns before the geometry check. -/
theorem build_mission_no_token_no_error :
    buildMissionAction none none (some (Geo.lineString [])) = .noop := rfl

/-- Claim C6, amended: for every invocation of buildMission holding an
auth token in which the field polygon or the runway centerline is absent,
no request is posted and the error message naming each missing geometry is
set; a POST to /missions/from-geo is issued only when both geometries are
present. -/
theorem build_mission_guards (token : Option String)
    (field runway : Option Geo) :
    (token.isSome = true → (field.isNone || runway.isNone) = true →
        buildMissionAction token field runway
            = .showError (missingGeometryMessage field runway)
          ∧ (field = none → "field polygon" ∈ missingParts field runway)
          ∧ (runway = none → "runway line" ∈ missingParts field runway))
      ∧ (buildMissionAction token field runway = .post →
          field.isSome = true ∧ runway.isSome = true) := by
  constructor
  · intro htok hmiss
    refine ⟨?_, ?_, ?_⟩
    · simp only [buildMissionAction, Option.isNone_iff_eq_none]
      rw [if_neg (by cases token <;> simp_all), if_pos hmiss]
    · intro hf
      simp [missingParts, hf]
    · intro hr
      simp [missingParts, hr]
  · intro hpost
    simp only [buildMissionAction] at hpost
    split at hpost
    · exact absurd hpost (by simp)
    · split at hpost
      · exact absurd hpost (by simp)
      · rename_i hmiss
        simp only [Bool.or_eq_true, Option.isNone_iff_eq_none, not_or] at hmiss
        cases field <;> cases runway <;> simp_all

theorem build_mission_guards_witness :
    buildMissionAction (some "token") none (some (Geo.lineString []))
        = .showError (missingGeometryMessage none (some (Geo.lineString [])))
      ∧ "field polygon" ∈ missingParts none (some (Geo.lineString [])) :=
  ⟨((build_mission_guards (some "token") none
      (some (Geo.lineString []))).1 rfl rfl).1,
    ((build_mission_guards (some "token") none
      (some (Geo.lineString []))).1 rfl rfl).2.1 rfl⟩

/-! ### normalizeRange of the map editor

JavaScript non-finite numbers are modelled by `Option ℚ`: `none` stands
for NaN or an infinity, exactly the values `Number.isFinite` rejects. -/

/-- A JavaScript number: `none` is non-finite. -/
abbrev JsNum := Option ℚ

/-- A trip object as the map editor reads it (the `TripGeo` type):
`start_idx` and `end_idx` may be absent or non-finite. -/
structure TripGeo where
  start_idx : Option JsNum
  end_idx : Option JsNum
  to_field : Option Geo
  back_home : Option Geo

/-- A normalized swath range (the `TripRange` type; the source's `end`
field is named `stop` here because `end` is reserved). -/
structure TripRange where
  start : ℕ
  stop : ℕ
deriving DecidableEq, Repr

/-- `trip.start_idx ?? 0` of `normalizeRange`. -/
def rawStartJs (trip : TripGeo) : JsNum := trip.start_idx.getD (some 0)

/-- `trip.end_idx ?? rawStart` of `normalizeRange`. -/
def rawEndJs (trip : TripGeo) : JsNum := trip.end_idx.getD (rawStartJs trip)

/-- `normalizeRange` of `map-editor.tsx`, lines 105 to 113: null when the
swath count is zero or an index is non-finite, otherwise the floor of each
index clamped into the swath range, with the end clamped below by the
start. -/
def normalizeRange (trip : TripGeo) (swathCount : ℕ) : Option TripRange :=
  if swathCount = 0 then none
  else
    match rawStartJs trip, rawEndJs trip with
    | some s, some e =>
      let start : ℤ := max 0 (min ((swathCount : ℤ) - 1) ⌊s⌋)
      let stop : ℤ := max start (min ((swathCount : ℤ) - 1) ⌊e⌋)
      some ⟨start.toNat, stop.toNat⟩
    | _, _ => none

/-- Claim C7: every trip a successful segmentation produces satisfies
end_idx at least start_idx; and for every trip object and positive swath
count, normalizeRange returns null exactly when an index is non-finite,
and otherwise a range with 0 at most start, start at most stop, and stop
at most swathCount minus one. -/
theorem trip_range_invariants (p : AircraftProfile) (lengths : List ℚ)
    (trips : List Trip) (h : segmentTrips p lengths = .ok trips)
    (trip : TripGeo) (swathCount : ℕ) (hsc : 0 < swathCount) :
    (∀ t ∈ trips, t.start_idx ≤ t.end_idx)
      ∧ (normalizeRange trip swathCount = none
          ↔ rawStartJs trip = none ∨ rawEndJs trip = none)
      ∧ ∀ rg, normalizeRange trip swathCount = some rg →
          rg.start ≤ rg.stop ∧ rg.stop ≤ swathCount - 1 := by
  refine ⟨chained_start_le_end trips 0 lengths.length
    (segmentTrips_chained p lengths trips h), ?_, ?_⟩
  · rw [normalizeRange, if_neg (by omega)]
    cases hs : rawStartJs trip with
    | none => simp
    | some s =>
      cases he : rawEndJs trip with
      | none => simp
      | some e => simp
  · intro rg hrg
    rw [normalizeRange, if_neg (by omega)] at hrg
    cases hs : rawStartJs trip with
    | none => rw [hs] at hrg; exact absurd hrg (by simp)
    | some s =>
      cases he : rawEndJs trip with
      | none => rw [hs, he] at hrg; exact absurd hrg (by simp)
      | some e =>
        rw [hs, he] at hrg
        simp only [Option.some_inj] at hrg
        subst hrg
        constructor
        · simp only
          omega
        · simp only
          omega

theorem trip_range_invariants_witness :
    (∀ t ∈ scenarioBTrips, t.start_idx ≤ t.end_idx)
      ∧ (normalizeRange ⟨some (some 3), some (some (17 / 2)), none, none⟩ 5 = none
          ↔ rawStartJs ⟨some (some 3), some (some (17 / 2)), none, none⟩ = none
            ∨ rawEndJs ⟨some (some 3), some (some (17 / 2)), none, none⟩ = none)
      ∧ ∀ rg,
          normalizeRange ⟨some (some 3), some (some (17 / 2)), none, none⟩ 5
            = some rg →
          rg.start ≤ rg.stop ∧ rg.stop ≤ 5 - 1 :=
  trip_range_invariants scenarioBProfile scenarioBLengths scenarioBTrips
    (by norm_num [segmentTrips, segGo, incVol, scenarioBProfile,
      scenarioBLengths, scenarioBTrips, List.replicate])
    ⟨some (some 3), some (some (17 / 2)), none, none⟩ 5 (by omega)

/-! ### Color helpers of the map editor

`hexToRgb`, `rgbToHex` and `interpolateColor` of `map-editor.tsx`.
A JavaScript channel value is `Option ℚ` with `none` for NaN: `parseInt`
yields NaN on a non-digit start, NaN propagates through arithmetic,
`Math.round`/`Math.min`/`Math.max` keep it, and `NaN.toString(16)` is the
three characters `NaN`, which `padStart(2, "0")` leaves unchanged. -/

/-- Whether `parseInt(c, 16)` accepts the character (both cases). -/
def hexVal? (c : Char) : Option ℕ :=
  if '0' ≤ c ∧ c ≤ '9' then some (c.toNat - 48)
  else if 'a' ≤ c ∧ c ≤ 'f' then some (c.toNat - 87)
  else if 'A' ≤ c ∧ c ≤ 'F' then some (c.toNat - 55)
  else none

/-- A hexadecimal digit character. -/
def isHexDigitChar (c : Char) : Bool := (hexVal? c).isSome

/-- `parseInt(s, 16)` restricted to the shapes `hexToRgb` feeds it: the
maximal leading run of hexadecimal digits is read, and an empty run gives
NaN (modelled `none`).  Leading whitespace, signs and the 0x prefix never
occur in the two-character slices of a color string. -/
def parseIntHex (cs : List Char) : Option ℕ :=
  let ds := cs.takeWhile isHexDigitChar
  if ds.isEmpty then none
  else some (ds.foldl (fun acc c => 16 * acc + (hexVal? c).getD 0) 0)

/-- `hex.replace("#", "")` of `hexToRgb`: every hash character removed. -/
def stripHash (s : String) : List Char := s.data.filter (· != '#')

/-- `hexToRgb` of `map-editor.tsx`: the three two-character slices of the
hash-stripped string, each parsed base 16. -/
def hexToRgb (s : String) : Option ℕ × Option ℕ × Option ℕ :=
  let v := stripHash s
  (parseIntHex (v.take 2), parseIntHex ((v.drop 2).take 2),
    parseIntHex ((v.drop 4).take 2))

/-- `Math.round`: round half toward positive infinity. -/
def jsRound (q : ℚ) : ℤ := ⌊q + 1 / 2⌋

/-- The `clamp` of `rgbToHex`:
`Math.max(0, Math.min(255, Math.round(v)))`, as a natural number. -/
def clampChan (q : ℚ) : ℕ := (max 0 (min 255 (jsRound q))).toNat

/-- The hexadecimal digit characters `Number.toString(16)` uses. -/
def hexChar (k : ℕ) : Char :=
  if k < 10 then Char.ofNat (48 + k) else Char.ofNat (87 + k)

/-- `n.toString(16).padStart(2, "0")` for a clamped channel value. -/
def toHexPadded (n : ℕ) : List Char :=
  if n < 16 then ['0', hexChar n] else [hexChar (n / 16), hexChar (n % 16)]

/-- One channel of `rgbToHex`: a finite value is clamped, rounded and
written as two padded hex digits; NaN prints as the string NaN. -/
def chanHex : Option ℚ → List Char
  | some q => toHexPadded (clampChan q)
  | none => ['N', 'a', 'N']

/-- `rgbToHex` of `map-editor.tsx`: a hash followed by the three channel
renderings. -/
def rgbToHex (r g b : Option ℚ) : String :=
  String.mk ('#' :: (chanHex r ++ chanHex g ++ chanHex b))

/-- One linear interpolation `a + (b - a) * t` with NaN propagation. -/
def chanLerp (a b : Option ℕ) (t : ℚ) : Option ℚ :=
  match a, b with
  | some x, some y => some ((x : ℚ) + ((y : ℚ) - (x : ℚ)) * t)
  | _, _ => none

/-- `interpolateColor` of `map-editor.tsx`, lines 69 to 77. -/
def interpolateColor (startColor endColor : String) (t : ℚ) : String :=
  let a := hexToRgb startColor
  let b := hexToRgb endColor
  rgbToHex (chanLerp a.1 b.1 t) (chanLerp a.2.1 b.2.1 t)
    (chanLerp a.2.2 b.2.2 t)

/-- A hash character followed by exactly six hexadecimal digits. -/
def isHashSixHexChars (cs : List Char) : Bool :=
  match cs with
  | c :: rest => c == '#' && rest.length == 6 && rest.all isHexDigitChar
  | [] => false

/-- A string of a hash followed by exactly six hexadecimal digits. -/
def isHashSixHex (s : String) : Bool := isHashSixHexChars s.data

/-- A 6-hex-digit color string: after removing hashes, exactly six
hexadecimal digits remain. -/
def isSixHexColor (s : String) : Bool :=
  ((stripHash s).length == 6) && (stripHash s).all isHexDigitChar

theorem hexChar_isHexDigit (k : ℕ) (hk : k < 16) :
    isHexDigitChar (hexChar k) = true := by
  interval_cases k <;> decide

theorem toHexPadded_spec (n : ℕ) (hn : n ≤ 255) :
    (toHexPadded n).length = 2
      ∧ ∀ c ∈ toHexPadded n, isHexDigitChar c = true := by
  rw [toHexPadded]
  split
  · refine ⟨rfl, ?_⟩
    intro c hc
    rcases List.mem_pair.mp hc with rfl | rfl
    · decide
    · exact hexChar_isHexDigit n (by omega)
  · refine ⟨rfl, ?_⟩
    intro c hc
    rcases List.mem_pair.mp hc with rfl | rfl
    · exact hexChar_isHexDigit (n / 16) (by omega)
    · exact hexChar_isHexDigit (n % 16) (by omega)

theorem chanHex_some_spec (q : ℚ) :
    (chanHex (some q)).length = 2
      ∧ ∀ c ∈ chanHex (some q), isHexDigitChar c = true := by
  have hle : clampChan q ≤ 255 := by
    unfold clampChan
    omega
  exact toHexPadded_spec (clampChan q) hle

theorem rgbToHex_some_hash (a b c : ℚ) :
    isHashSixHex (rgbToHex (some a) (some b) (some c)) = true := by
  obtain ⟨hla, hha⟩ := chanHex_some_spec a
  obtain ⟨hlb, hhb⟩ := chanHex_some_spec b
  obtain ⟨hlc, hhc⟩ := chanHex_some_spec c
  have hlen :
      (chanHex (some a) ++ chanHex (some b) ++ chanHex (some c)).length = 6 := by
    simp [List.length_append, hla, hlb, hlc]
  have hall : ∀ x ∈ chanHex (some a) ++ chanHex (some b) ++ chanHex (some c),
      isHexDigitChar x = true := by
    intro x hx
    rcases List.mem_append.mp hx with hx | hx
    · rcases List.mem_append.mp hx with hx | hx
      · exact hha x hx
      · exact hhb x hx
    · exact hhc x hx
  show isHashSixHexChars
    ('#' :: (chanHex (some a) ++ chanHex (some b) ++ chanHex (some c))) = true
  simp only [isHashSixHexChars, Bool.and_eq_true, beq_iff_eq,
    List.all_eq_true]
  and_intros <;> trivial

theorem parseIntHex_isSome (cs : List Char) (hne : cs ≠ [])
    (hall : ∀ c ∈ cs, isHexDigitChar c = true) :
    (parseIntHex cs).isSome = true := by
  cases cs with
  | nil => exact absurd rfl hne
  | cons c rest =>
    have hc : isHexDigitChar c = true := hall c (List.mem_cons_self c rest)
    simp only [parseIntHex, List.takeWhile_cons, hc, if_true]
    simp

theorem hexToRgb_of_sixHex (s : String) (hs : isSixHexColor s = true) :
    ∃ x y z, hexToRgb s = (some x, some y, some z) := by
  simp only [isSixHexColor, Bool.and_eq_true, beq_iff_eq,
    List.all_eq_true] at hs
  obtain ⟨hlen, hall⟩ := hs
  have h1 : (parseIntHex ((stripHash s).take 2)).isSome = true := by
    refine parseIntHex_isSome _ ?_ ?_
    · have : ((stripHash s).take 2).length = 2 := by
        rw [List.length_take, hlen]
        omega
      intro hcon
      rw [hcon] at this
      simp at this
    · intro c hc
      exact hall c (List.take_subset 2 _ hc)
  have h2 : (parseIntHex (((stripHash s).drop 2).take 2)).isSome = true := by
    refine parseIntHex_isSome _ ?_ ?_
    · have : (((stripHash s).drop 2).take 2).length = 2 := by
        rw [List.length_take, List.length_drop, hlen]
        omega
      intro hcon
      rw [hcon] at this
      simp at this
    · intro c hc
      exact hall c (List.drop_subset 2 _ (List.take_subset 2 _ hc))
  have h3 : (parseIntHex (((stripHash s).drop 4).take 2)).isSome = true := by
    refine parseIntHex_isSome _ ?_ ?_
    · have : (((stripHash s).drop 4).take 2).length = 2 := by
        rw [List.length_take, List.length_drop, hlen]
        omega
      intro hcon
      rw [hcon] at this
      simp at this
    · intro c hc
      exact hall c (List.drop_subset 4 _ (List.take_subset 2 _ hc))
  obtain ⟨x, hx⟩ := Option.isSome_iff_exists.mp h1
  obtain ⟨y, hy⟩ := Option.isSome_iff_exists.mp h2
  obtain ⟨z, hz⟩ := Option.isSome_iff_exists.mp h3
  exact ⟨x, y, z, by simp [hexToRgb, hx, hy, hz]⟩

/-- Claim C8: for every pair of 6-hex-digit color strings and every
rational t, also outside the unit interval, interpolateColor returns a
hash followed by exactly six hexadecimal digits, because rgbToHex clamps
each channel into 0..255 and rounds before conversion. -/
theorem interpolate_color_is_hex (s e : String) (t : ℚ)
    (hs : isSixHexColor s = true) (he : isSixHexColor e = true) :
    isHashSixHex (interpolateColor s e t) = true := by
  obtain ⟨x1, y1, z1, h1⟩ := hexToRgb_of_sixHex s hs
  obtain ⟨x2, y2, z2, h2⟩ := hexToRgb_of_sixHex e he
  rw [interpolateColor, h1, h2]
  simp only [chanLerp]
  exact rgbToHex_some_hash _ _ _

theorem interpolate_color_is_hex_witness :
    isHashSixHex (interpolateColor "#22c55e" "#111827" (-(3 / 2))) = true :=
  interpolate_color_is_hex "#22c55e" "#111827" (-(3 / 2))
    (by decide) (by decide)

/-! ### linesToGradient of the map editor -/

/-- A rendered gradient segment: two coordinates and a color. -/
structure PathSegment where
  coords : List Pt
  color : String
deriving Repr, Inhabited

/-- `linesToGradient` of `map-editor.tsx`, lines 124 to 136: the input
polylines are flattened to one point list; fewer than two points give no
segments; otherwise segment i joins point i to point i+1 and is colored by
the interpolation parameter `i / max(1, points.length - 2)`. -/
def linesToGradient (lines : List (List Pt))
    (startColor endColor : String) : List PathSegment :=
  if lines.flatten.length < 2 then []
  else
    (List.range (lines.flatten.length - 1)).map fun (i : ℕ) =>
      ⟨[lines.flatten.getD i default, lines.flatten.getD (i + 1) default],
        interpolateColor startColor endColor
          ((i : ℚ) / ((max 1 (lines.flatten.length - 2) : ℕ) : ℚ))⟩

/-- Claim C9: for every polyline list whose concatenation has p points,
linesToGradient returns no segments when p is below two, and otherwise
exactly p - 1 segments, segment i joining point i to point i + 1 of the
concatenated point list. -/
theorem lines_to_gradient_segments (lines : List (List Pt))
    (startColor endColor : String) :
    (lines.flatten.length < 2 →
        linesToGradient lines startColor endColor = [])
      ∧ (linesToGradient lines startColor endColor).length
          = lines.flatten.length - 1
      ∧ ∀ i, i < lines.flatten.length - 1 →
          ((linesToGradient lines startColor endColor).getD i default).coords
            = [lines.flatten.getD i default,
               lines.flatten.getD (i + 1) default] := by
  refine ⟨?_, ?_, ?_⟩
  · intro h
    rw [linesToGradient, if_pos h]
  · by_cases h : lines.flatten.length < 2
    · rw [linesToGradient, if_pos h]
      simp only [List.length_nil]
      omega
    · rw [linesToGradient, if_neg h]
      rw [List.length_map, List.length_range]
  · intro i hi
    have h2 : ¬ lines.flatten.length < 2 := by omega
    rw [linesToGradient, if_neg h2]
    have hr : (List.range (lines.flatten.length - 1))[i]? = some i :=
      List.getElem?_range hi
    rw [List.getD_eq_getElem?_getD, List.getElem?_map, hr]
    rfl

/-- Three points across two polylines. -/
def sampleLines : List (List Pt) := [[(1, 2), (3, 4)], [(5, 6)]]

theorem lines_to_gradient_segments_witness :
    (sampleLines.flatten.length < 2 →
        linesToGradient sampleLines "#22c55e" "#111827" = [])
      ∧ (linesToGradient sampleLines "#22c55e" "#111827").length
          = sampleLines.flatten.length - 1
      ∧ ∀ i, i < sampleLines.flatten.length - 1 →
          ((linesToGradient sampleLines "#22c55e" "#111827").getD
              i default).coords
            = [sampleLines.flatten.getD i default,
               sampleLines.flatten.getD (i + 1) default] :=
  lines_to_gradient_segments sampleLines "#22c55e" "#111827"

/-! ### nearestIndex and coverRangeForTrip of the map editor -/

/-- The squared Euclidean distance of `nearestIndex`. -/
def dist2 (p target : Pt) : ℚ :=
  (p.1 - target.1) * (p.1 - target.1) + (p.2 - target.2) * (p.2 - target.2)

/-- The loop of `nearestIndex`: the state is (bestIdx, bestDist), `i` is
the index of the next point, and a strictly smaller squared distance takes
over. -/
def nearestGo (target : Pt) : List Pt → ℕ → ℕ × ℚ → ℕ × ℚ
  | [], _, best => best
  | p :: rest, i, best =>
    if dist2 p target < best.2 then nearestGo target rest (i + 1) (i, dist2 p target)
    else nearestGo target rest (i + 1) best

/-- `nearestIndex` of `map-editor.tsx`, lines 138 to 151: bestDist starts
at positive infinity, so the first point always takes over; an empty list
returns the initial bestIdx 0. -/
def nearestIndex (points : List Pt) (target : Pt) : ℕ :=
  match points with
  | [] => 0
  | p :: ps => (nearestGo target ps 1 (0, dist2 p target)).1

theorem nearestGo_provenance (target : Pt) :
    ∀ (rest : List Pt) (i : ℕ) (best : ℕ × ℚ),
      (nearestGo target rest i best = best)
        ∨ ∃ k, k < rest.length
            ∧ (nearestGo target rest i best).1 = i + k
            ∧ (nearestGo target rest i best).2
                = dist2 (rest.getD k default) target
  | [], i, best => Or.inl rfl
  | p :: rest, i, best => by
    rw [nearestGo]
    split
    · rcases nearestGo_provenance target rest (i + 1) (i, dist2 p target) with
        heq | ⟨k, hk, h1, h2⟩
      · refine Or.inr ⟨0, by simp, ?_, ?_⟩
        · rw [heq]
          omega
        · rw [heq]
          rfl
      · refine Or.inr ⟨k + 1, by simp; omega, ?_, ?_⟩
        · rw [h1]
          omega
        · rw [h2]
          rfl
    · rcases nearestGo_provenance target rest (i + 1) best with
        heq | ⟨k, hk, h1, h2⟩
      · exact Or.inl heq
      · refine Or.inr ⟨k + 1, by simp; omega, ?_, ?_⟩
        · rw [h1]
          omega
        · rw [h2]
          rfl

theorem nearestGo_min (target : Pt) :
    ∀ (rest : List Pt) (i : ℕ) (best : ℕ × ℚ),
      (nearestGo target rest i best).2 ≤ best.2
        ∧ ∀ k, k < rest.length →
            (nearestGo target rest i best).2
              ≤ dist2 (rest.getD k default) target
  | [], i, best => ⟨le_refl _, by simp⟩
  | p :: rest, i, best => by
    rw [nearestGo]
    split
    · rename_i hlt
      obtain ⟨h1, h2⟩ := nearestGo_min target rest (i + 1) (i, dist2 p target)
      refine ⟨?_, ?_⟩
      · exact le_trans h1 (le_of_lt hlt)
      · intro k hk
        cases k with
        | zero => exact h1
        | succ k => exact h2 k (by simpa using hk)
    · rename_i hge
      obtain ⟨h1, h2⟩ := nearestGo_min target rest (i + 1) best
      refine ⟨h1, ?_⟩
      · intro k hk
        cases k with
        | zero => exact le_trans h1 (le_of_not_lt hge)
        | succ k => exact h2 k (by simpa using hk)

/-- For a nonempty point list the loop returns an in-range index whose
point realizes the minimum squared distance. -/
theorem nearestIndex_spec (points : List Pt) (target : Pt)
    (hne : points ≠ []) :
    nearestIndex points target < points.length
      ∧ ∀ j, j < points.length →
          dist2 (points.getD (nearestIndex points target) default) target
            ≤ dist2 (points.getD j default) target := by
  cases points with
  | nil => exact absurd rfl hne
  | cons p ps =>
    rw [nearestIndex]
    constructor
    · rcases nearestGo_provenance target ps 1 (0, dist2 p target) with
        heq | ⟨k, hk, h1, h2⟩
      · rw [heq]
        simp
      · rw [h1]
        simp only [List.length_cons]
        omega
    · intro j hj
      obtain ⟨hb, hrest⟩ := nearestGo_min target ps 1 (0, dist2 p target)
      have hval :
          (nearestGo target ps 1 (0, dist2 p target)).2
            = dist2 ((p :: ps).getD
                (nearestGo target ps 1 (0, dist2 p target)).1 default) target := by
        rcases nearestGo_provenance target ps 1 (0, dist2 p target) with
          heq | ⟨k, hk, h1, h2⟩
        · rw [heq]
          rfl
        · rw [h1, h2]
          have : (p :: ps).getD (1 + k) default = ps.getD k default := by
            have h1k : 1 + k = k + 1 := by omega
            rw [h1k]
            rfl
          rw [this]
      rw [← hval]
      cases j with
      | zero => exact hb
      | succ j => exact hrest j (by simpa using hj)

/-- A rendered cover-path index range (the `IndexRange` type; the
source's `end` field is named `stop` here because `end` is reserved). -/
structure IndexRange where
  start : ℕ
  stop : ℕ
deriving DecidableEq, Repr

/-- `coverRangeForTrip` of `map-editor.tsx`, lines 153 to 172: null
without a trip range or with fewer than two cover points, with an
out-of-range swath index, or with an empty endpoint set; otherwise the
nearest cover-path indices of the first and last swath's points, returned
as min and max when the max exceeds the min (the finiteness checks of the
source never fail on a nonempty index list). -/
def coverRangeForTrip (coverPoints : List Pt) (swaths : List Geo)
    (trip : Option TripRange) : Option IndexRange :=
  match trip with
  | none => none
  | some tr =>
    if coverPoints.length < 2 then none
    else
      match swaths[tr.start]?, swaths[tr.stop]? with
      | some startSwath, some endSwath =>
        let startPts := (geoToLines startSwath).flatten
        let endPts := (geoToLines endSwath).flatten
        if startPts.isEmpty || endPts.isEmpty then none
        else
          match (startPts ++ endPts).map
              (fun pt => nearestIndex coverPoints pt) with
          | [] => none
          | i0 :: irest =>
            let lo := irest.foldl min i0
            let hi := irest.foldl max i0
            if hi ≤ lo then none else some ⟨lo, hi⟩
      | _, _ => none

theorem foldl_min_mem (l : List ℕ) (x : ℕ) :
    l.foldl min x = x ∨ l.foldl min x ∈ l := by
  induction l generalizing x with
  | nil => exact Or.inl rfl
  | cons a l ih =>
    rw [List.foldl_cons]
    rcases ih (min x a) with h | h
    · rcases Nat.le_total x a with hxa | hax
      · rw [h, min_eq_left hxa]
        exact Or.inl rfl
      · rw [h, min_eq_right hax]
        exact Or.inr (List.mem_cons_self a l)
    · exact Or.inr (List.mem_cons_of_mem a h)

theorem foldl_max_mem (l : List ℕ) (x : ℕ) :
    l.foldl max x = x ∨ l.foldl max x ∈ l := by
  induction l generalizing x with
  | nil => exact Or.inl rfl
  | cons a l ih =>
    rw [List.foldl_cons]
    rcases ih (max x a) with h | h
    · rcases Nat.le_total x a with hxa | hax
      · rw [h, max_eq_right hxa]
        exact Or.inr (List.mem_cons_self a l)
      · rw [h, max_eq_left hax]
        exact Or.inl rfl
    · exact Or.inr (List.mem_cons_of_mem a h)

/-- Claim C10: for every nonempty point list, nearestIndex returns an
index in range of a point with minimal squared Euclidean distance to the
target; and coverRangeForTrip returns either null or an index range with
0 at most start, start strictly below stop, and stop at most
coverPoints.length minus one. -/
theorem nearest_index_cover_range (points : List Pt) (target : Pt)
    (hne : points ≠ []) (coverPoints : List Pt) (swaths : List Geo)
    (trip : Option TripRange) :
    (nearestIndex points target < points.length
      ∧ ∀ j, j < points.length →
          dist2 (points.getD (nearestIndex points target) default) target
            ≤ dist2 (points.getD j default) target)
      ∧ ∀ rg, coverRangeForTrip coverPoints swaths trip = some rg →
          rg.start < rg.stop ∧ rg.stop ≤ coverPoints.length - 1 := by
  refine ⟨nearestIndex_spec points target hne, ?_⟩
  intro rg hrg
  match trip with
  | none => exact absurd hrg (by simp [coverRangeForTrip])
  | some tr =>
    rw [coverRangeForTrip] at hrg
    split at hrg
    · exact absurd hrg (by simp)
    · rename_i hlen2
      cases hss : swaths[tr.start]? with
      | none => rw [hss] at hrg; exact absurd hrg (by simp)
      | some startSwath =>
        cases hes : swaths[tr.stop]? with
        | none => rw [hss, hes] at hrg; exact absurd hrg (by simp)
        | some endSwath =>
          rw [hss, hes] at hrg
          simp only at hrg
          split at hrg
          · exact absurd hrg (by simp)
          · rename_i hidx
            split at hrg
            · exact absurd hrg (by simp)
            · rename_i heads i0 irest hmap
              split at hrg
              · exact absurd hrg (by simp)
              · rename_i hle
                simp only [Option.some_inj] at hrg
                subst hrg
                have hcne : coverPoints ≠ [] := by
                  intro hcon
                  rw [hcon] at hlen2
                  simp at hlen2
                have hbound : ∀ n ∈ i0 :: irest, n < coverPoints.length := by
                  intro n hn
                  rw [← hmap] at hn
                  obtain ⟨pt, hpt, hptn⟩ := List.mem_map.mp hn
                  rw [← hptn]
                  exact (nearestIndex_spec coverPoints pt hcne).1
                have hlo : irest.foldl min i0 ∈ i0 :: irest := by
                  rcases foldl_min_mem irest i0 with h | h
                  · rw [h]; exact List.mem_cons_self i0 irest
                  · exact List.mem_cons_of_mem i0 h
                have hhi : irest.foldl max i0 ∈ i0 :: irest := by
                  rcases foldl_max_mem irest i0 with h | h
                  · rw [h]; exact List.mem_cons_self i0 irest
                  · exact List.mem_cons_of_mem i0 h
                have h1 := hbound _ hlo
                have h2 := hbound _ hhi
                constructor
                · simp only
                  omega
                · simp only
                  omega

theorem nearest_index_cover_range_witness :
    (nearestIndex [((0 : ℚ), (0 : ℚ)), (3, 4), (1, 1)] (1, 1)
          < ([((0 : ℚ), (0 : ℚ)), (3, 4), (1, 1)] : List Pt).length
      ∧ ∀ j, j < ([((0 : ℚ), (0 : ℚ)), (3, 4), (1, 1)] : List Pt).length →
          dist2 (([((0 : ℚ), (0 : ℚ)), (3, 4), (1, 1)] : List Pt).getD
              (nearestIndex [((0 : ℚ), (0 : ℚ)), (3, 4), (1, 1)] (1, 1)) default)
            (1, 1)
            ≤ dist2 (([((0 : ℚ), (0 : ℚ)), (3, 4), (1, 1)] : List Pt).getD j default)
                (1, 1))
      ∧ ∀ rg,
          coverRangeForTrip [((0 : ℚ), (0 : ℚ)), (3, 4), (1, 1)]
              [Geo.lineString [(0, 0), (3, 4)]] (some ⟨0, 0⟩) = some rg →
          rg.start < rg.stop
            ∧ rg.stop ≤ ([((0 : ℚ), (0 : ℚ)), (3, 4), (1, 1)] : List Pt).length - 1 :=
  nearest_index_cover_range [((0 : ℚ), (0 : ℚ)), (3, 4), (1, 1)] (1, 1)
    (by simp) [((0 : ℚ), (0 : ℚ)), (3, 4), (1, 1)]
    [Geo.lineString [(0, 0), (3, 4)]] (some ⟨0, 0⟩)

end AgroMvp
